import Mathlib

/-!
Verification development for the `dvdrip` pipeline (tools/dvdrip.py).

Strings are embedded as `List Char`; the Python source is translated
function by function.  Regular-expression matching in the source uses only
patterns whose greedy matching is deterministic (a maximal character-class
run followed by a literal), so each pattern is embedded as a first-match
parser over the character list.
-/

namespace Dvdrip

/-! ## Basic character-list utilities -/

/-- Whitespace characters stripped by Python `str.strip()`. -/
def isPyWs (c : Char) : Bool :=
  c = ' ' || c = '\t' || c = '\n' || c = '\r' || c = '\x0b' || c = '\x0c'

/-- Strip whitespace from both ends, as Python `str.strip()`. -/
def pystrip (s : List Char) : List Char :=
  ((s.dropWhile isPyWs).reverse.dropWhile isPyWs).reverse

/-- Match a literal at the front; return the remainder on success. -/
def dropLit : List Char → List Char → Option (List Char)
  | [], s => some s
  | _ :: _, [] => none
  | c :: cs, d :: ds => if c = d then dropLit cs ds else none

/-- Split off the maximal run of characters satisfying `p`. -/
def takeRun (p : Char → Bool) : List Char → List Char × List Char
  | [] => ([], [])
  | c :: cs =>
    if p c then
      match takeRun p cs with
      | (r, rest) => (c :: r, rest)
    else ([], c :: cs)

/-- Like `takeRun` but fails when the run is empty (regex `+`). -/
def takeRun1 (p : Char → Bool) (s : List Char) : Option (List Char × List Char) :=
  match takeRun p s with
  | ([], _) => none
  | (r, rest) => some (r, rest)

/-- Does `pre` occur at the front of the second list? -/
def hasPre : List Char → List Char → Bool
  | [], _ => true
  | _ :: _, [] => false
  | c :: cs, d :: ds => c = d && hasPre cs ds

/-- Substring containment, the semantics of `re.search` on a literal pattern. -/
def containsSub (needle : List Char) : List Char → Bool
  | [] => hasPre needle []
  | c :: rest => hasPre needle (c :: rest) || containsSub needle rest

/-- Split on the newline character, as Python `str.split(chr(10))`. -/
def splitOnNl : List Char → List (List Char)
  | [] => [[]]
  | c :: rest =>
    match splitOnNl rest with
    | [] => [[]]
    | h :: t => if c = '\n' then [] :: h :: t else (c :: h) :: t

/-- Decimal value of a digit string, as Python `int()` on a digit-only string. -/
def natOfDigits (ds : List Char) : Nat :=
  ds.foldl (fun a c => a * 10 + (c.toNat - 48)) 0

/-- Join with single spaces, as Python `chr(32).join(cmd)`. -/
def joinSp : List (List Char) → List Char
  | [] => []
  | [x] => x
  | x :: y :: rest => x ++ ' ' :: joinSp (y :: rest)

/-- Python `\w` on an ASCII string: letters, digits, underscore. -/
def isWordChar (c : Char) : Bool := c.isAlpha || c.isDigit || c = '_'

/-- Character class `[0-9:.]` of the TOC length field. -/
def isDurChar (c : Char) : Bool := c.isDigit || c = ':' || c = '.'

/-- Character class of the format groups in the audio line: `[\w.]`. -/
def isFmtChar (c : Char) : Bool := isWordChar c || c = '.'

/-- The first list is a contiguous initial segment of the second. -/
def leads {α : Type} (l₁ l₂ : List α) : Prop := ∃ t, l₁ ++ t = l₂

/-! ## LanguageCodeMapper (`lang_iso_code`, dvdrip.py lines 49-65)

The Python dictionary is embedded as an association list in source order;
lookup of an absent key (Python `KeyError`, the spec's
`UnrecognizedLanguageError`) is `none`. -/

def lang_iso_code : List (List Char × List Char) :=
  [ ("ar".toList, "ara".toList)  -- Arabic
  , ("cy".toList, "cym".toList)  -- Welsh
  , ("de".toList, "ger".toList)  -- German
  , ("en".toList, "eng".toList)  -- English
  , ("es".toList, "spa".toList)  -- Spanish
  , ("fa".toList, "fas".toList)  -- Persian
  , ("fr".toList, "fra".toList)  -- French
  , ("ga".toList, "gle".toList)  -- Irish
  , ("he".toList, "heb".toList)  -- Hebrew
  , ("ja".toList, "jpn".toList)  -- Japanese
  , ("ko".toList, "kor".toList)  -- Korean
  , ("pt".toList, "por".toList)  -- Portuguese
  , ("ru".toList, "rus".toList)  -- Russian
  , ("zh".toList, "chi".toList)  -- Chinese
  , ("unknown".toList, "eng".toList) ]

/-- Dictionary lookup `lang_iso_code[k]`; `none` models the `KeyError`
that the spec calls `UnrecognizedLanguageError`. -/
def lang_lookup (k : List Char) : Option (List Char) :=
  (lang_iso_code.find? (fun p => p.1 == k)).map (fun p => p.2)

/-! ## Filename sanitizer (`filesafe`, dvdrip.py lines 177-186) -/

/-- One character of `s.encode(ascii, replace)`: non-ASCII becomes `?`. -/
def ascii_replace (c : Char) : Char := if c.toNat ≤ 127 then c else '?'

/-- The first `badchar` string: characters deleted outright. -/
def del_chars : List Char := ['?', '*', '"', '\\', '\x27', '!', '<', '>', '(', ')']

/-- The second `badchar` string: characters replaced with a dash. -/
def dash_chars : List Char := [':', '/', '\\', '#']

/-- Python `s.replace(c, empty string)`. -/
def py_replace_del (s : List Char) (c : Char) : List Char :=
  s.filter (fun x => x != c)

/-- Python `s.replace(c, dash)`. -/
def py_replace_dash (s : List Char) (c : Char) : List Char :=
  s.map (fun x => if x == c then '-' else x)

/-- The `filesafe` sanitizer: the empty guard, the ascii fold, the
deletion loop over `del_chars`, then the dash loop over `dash_chars`. -/
def filesafe (s : List Char) : List Char :=
  if s = [] then []
  else dash_chars.foldl py_replace_dash (del_chars.foldl py_replace_del (s.map ascii_replace))

/-! ## TitleSelector (`read_toc`, dvdrip.py lines 92-107) -/

/-- Stable insertion step: insert `x` before the first element it must
strictly precede, hence after every earlier element it ties with. -/
def insBefore {α : Type} (bef : α → α → Bool) (x : α) : List α → List α
  | [] => [x]
  | y :: ys => if bef x y then x :: y :: ys else y :: insBefore bef x ys

/-- Python `list.sort` is a stable sort; it is embedded as a stable
insertion sort driven by the strict comes-before relation `bef`. -/
def pysort {α : Type} (bef : α → α → Bool) (l : List α) : List α :=
  l.foldl (fun acc x => insBefore bef x acc) []

/-- Python string comparison (bytewise lexicographic) as a strict order. -/
def strLt : List Char → List Char → Bool
  | _, [] => false
  | [], _ :: _ => true
  | a :: as, b :: bs => if a < b then true else if b < a then false else strLt as bs

/-- One TOC line against `Title: (\d+), Length: ([0-9:.]+)` via `re.match`;
on a match the tuple `(m.group(2), int(m.group(1)))` that the source appends. -/
def parse_title_line (line : List Char) : Option (List Char × Nat) :=
  (dropLit "Title: ".toList line).bind fun r1 =>
  (takeRun1 Char.isDigit r1).bind fun dr =>
  (dropLit ", Length: ".toList dr.2).bind fun r2 =>
  (takeRun1 isDurChar r2).map fun gr => (gr.1, natOfDigits dr.1)

/-- The `title_len` list accumulated over the (stripped) TOC lines. -/
def toc_matches (lines : List (List Char)) : List (List Char × Nat) :=
  lines.filterMap (fun l => parse_title_line (pystrip l))

/-- `title_len.sort(key=lambda x: x[0], reverse=True)`: an entry comes
strictly before another iff its duration string is strictly greater. -/
def durBefore (a b : List Char × Nat) : Bool := strLt b.1 a.1

/-- `title_len.sort(key=lambda x: x[1])`: strictly smaller index first. -/
def idxBefore (a b : List Char × Nat) : Bool := decide (a.2 < b.2)

/-- The entries surviving `title_len[:n]` after the duration sort. -/
def toc_selected (lines : List (List Char)) (n : Nat) : List (List Char × Nat) :=
  (pysort durBefore (toc_matches lines)).take n

/-- `read_toc` without the subprocess wrapper: TOC text in, indices out. -/
def read_toc (lines : List (List Char)) (n : Nat) : List Nat :=
  (pysort idxBefore (toc_selected lines n)).map (fun x => x.2)

/-- Modelled from the spec: `TitleEntry.durationSeconds` for a duration
field `<HH:MM:SS[.frac]>` (spec sections 3 and 6), truncated to whole
seconds.  The source never interprets durations numerically, so this
definition exists only to state what "longest-duration" means. -/
def durationSeconds (d : List Char) : Option Nat :=
  match d.splitOn ':' with
  | [h, m, s] =>
    (takeRun1 Char.isDigit h).bind fun hh =>
    (takeRun1 Char.isDigit m).bind fun mm =>
    (takeRun1 Char.isDigit s).map fun ss =>
      natOfDigits hh.1 * 3600 + natOfDigits mm.1 * 60 + natOfDigits ss.1
  | _ => none

/-! ## MetadataExtractor (`parse_metadata`, dvdrip.py lines 121-144) -/

/-- The audio line against
`audio stream: \d+ format: ([\w.]+) \(([\w.]+)\) language: (\w+)`;
returns the three captured groups. -/
def audio_match (line : List Char) : Option (List Char × List Char × List Char) :=
  (dropLit "audio stream: ".toList line).bind fun r1 =>
  (takeRun1 Char.isDigit r1).bind fun dr =>
  (dropLit " format: ".toList dr.2).bind fun r2 =>
  (takeRun1 isFmtChar r2).bind fun g1 =>
  (dropLit " (".toList g1.2).bind fun r3 =>
  (takeRun1 isFmtChar r3).bind fun g2 =>
  (dropLit ") language: ".toList g2.2).bind fun r4 =>
  (takeRun1 isWordChar r4).map fun g3 => (g1.1, g2.1, g3.1)

/-- The subtitle line against `subtitle \( sid \): \d+ language: (\w+)`. -/
def subtitle_match (line : List Char) : Option (List Char) :=
  (dropLit "subtitle ( sid ): ".toList line).bind fun r1 =>
  (takeRun1 Char.isDigit r1).bind fun dr =>
  (dropLit " language: ".toList dr.2).bind fun r2 =>
  (takeRun1 isWordChar r2).map fun gr => gr.1

inductive SType
  | audio
  | subtitle
  deriving DecidableEq

/-- The `Stream` metadata container (dvdrip.py lines 68-78). -/
structure Stream where
  type : SType
  format : Option (List Char)
  language : List Char
  deriving DecidableEq

/-- The descriptors one (already stripped) log line contributes: the source
tries the audio pattern, then the subtitle pattern, appending in that
order; `none` is the `KeyError` from an unrecognized language code. -/
def line_streams (line : List Char) : Option (List Stream) :=
  match audio_match line with
  | some (g1, g2, g3) =>
    match lang_lookup g3 with
    | none => none
    | some code =>
      let a : Stream := ⟨SType.audio, some (g1 ++ ':' :: g2), code⟩
      match subtitle_match line with
      | some g =>
        match lang_lookup g with
        | none => none
        | some c2 => some [a, ⟨SType.subtitle, none, c2⟩]
      | none => some [a]
  | none =>
    match subtitle_match line with
    | some g =>
      match lang_lookup g with
      | none => none
      | some c2 => some [⟨SType.subtitle, none, c2⟩]
    | none => some []

/-- `parse_metadata` over the log lines; `none` propagates the `KeyError`
(the spec's `UnrecognizedLanguageError`) aborting the whole extraction. -/
def parse_metadata : List (List Char) → Option (List Stream)
  | [] => some []
  | l :: rest =>
    match line_streams (pystrip l), parse_metadata rest with
    | some ss, some rs => some (ss ++ rs)
    | _, _ => none

/-! ## MetadataTagger (`stream_language_tags`, dvdrip.py lines 158-174) -/

/-- The loop body of `stream_language_tags`, carrying the `astream` and
`sstream` counters. -/
def stream_language_tags_go (astream sstream : Nat) : List Stream → List (List Char)
  | [] => []
  | s :: rest =>
    match s.type with
    | SType.audio =>
      ("-metadata:s:a:".toList ++ (Nat.repr astream).toList)
        :: ("language=".toList ++ s.language)
        :: stream_language_tags_go (astream + 1) sstream rest
    | SType.subtitle =>
      ("-metadata:s:s:".toList ++ (Nat.repr sstream).toList)
        :: ("language=".toList ++ s.language)
        :: stream_language_tags_go astream (sstream + 1) rest

/-- `stream_language_tags`: the `-metadata` arguments tagging all streams. -/
def stream_language_tags (stream_defs : List Stream) : List (List Char) :=
  stream_language_tags_go 0 0 stream_defs

/-! ## Remuxer (`re_mux`, dvdrip.py lines 189-278) -/

/-- The non-monotonic-timestamp fault signature (line 246). -/
def nm_sig : List Char := "non monotonically increasing dts".toList

/-- The codec-parameters fault signature (line 253), up to its capture. -/
def codec_sig : List Char := "Could not find codec parameters for stream ".toList

/-- The per-line stream listing pattern `Stream #0:(\d+)` (line 262). -/
def stream0_sig : List Char := "Stream #0:".toList

/-- The sentinel beginning the output section (line 265). -/
def output0_sig : List Char := "Output #0".toList

/-- The initial wildcard map arguments `['-map', '0']` (line 195). -/
def all_map_args : List (List Char) := ["-map".toList, "0".toList]

/-- The map arguments after the non-monotonic fault (line 250). -/
def va_map_args : List (List Char) :=
  ["-map".toList, "0:v".toList, "-map".toList, "0:a".toList]

/-- `re.search` of `<codec_sig>(\d+)`: first position where the literal is
followed by at least one digit; the captured maximal digit run. -/
def searchCodec : List Char → Option (List Char)
  | [] => none
  | c :: rest =>
    match (dropLit codec_sig (c :: rest)).bind (takeRun1 Char.isDigit) with
    | some dr => some dr.1
    | none => searchCodec rest

/-- `re.search` of `Stream #0:(\d+)` within one line. -/
def searchStream0 : List Char → Option (List Char)
  | [] => none
  | c :: rest =>
    match (dropLit stream0_sig (c :: rest)).bind (takeRun1 Char.isDigit) with
    | some dr => some dr.1
    | none => searchStream0 rest

/-- The rebuild loop (lines 261-268): walk the stderr lines, stop at the
first `Output #0` line, and emit `['-map', '0:<i>']` for the first
`Stream #0:(\d+)` capture of every line whose capture is not `bad`. -/
def rebuild_map_args (bad : List Char) : List (List Char) → List (List Char)
  | [] => []
  | line :: rest =>
    if hasPre output0_sig line then []
    else
      match searchStream0 line with
      | some g =>
        if g == bad then rebuild_map_args bad rest
        else "-map".toList :: ('0' :: ':' :: g) :: rebuild_map_args bad rest
      | none => rebuild_map_args bad rest

/-- One simulated child-process result: exit status plus captured text. -/
structure Outcome where
  status : Int
  out : List Char
  err : List Char
  deriving DecidableEq

/-- Dictionary lookup in the metadata bag (embedded in iteration order). -/
def bag_get (bag : List (List Char × List Char)) (k : List Char) : Option (List Char) :=
  (bag.find? (fun p => p.1 == k)).map (fun p => p.2)

/-- The output filename (lines 196-200).  `main` always places `title` in
the bag; an absent key is embedded as the empty string. -/
def re_mux_outfile (bag : List (List Char × List Char)) : List Char :=
  match bag_get bag "episode_id".toList with
  | some e =>
    filesafe (e ++ ' ' :: ((bag_get bag "title".toList).getD []) ++ ".mp4".toList)
  | none => filesafe (((bag_get bag "title".toList).getD []) ++ ".mp4".toList)

/-- The ffmpeg command line of one attempt (lines 204-227).  The language
tags are computed from `stream_defs`, the module-level `streams` value,
exactly as line 225 does. -/
def build_cmd (tmpfile : List Char) (map_args : List (List Char))
    (bag : List (List Char × List Char)) (stream_defs : List Stream)
    (outfile : List Char) : List (List Char) :=
  ("ffmpeg".toList :: "-probesize".toList :: "200M".toList
      :: "-analyzeduration".toList :: "120M".toList :: "-i".toList :: tmpfile :: map_args)
  ++ ("-c".toList :: "copy".toList :: "-y".toList :: [])
  ++ bag.flatMap (fun p => ["-metadata".toList, p.1 ++ '=' :: p.2])
  ++ stream_language_tags stream_defs
  ++ [outfile]

/-- Classification of one failed or successful attempt (lines 234-278). -/
inductive StepR
  | ok
  | retry (new_map : List (List Char))
  | failure (arts : List (List Char × List Char))
  deriving DecidableEq

/-- The body of the `while True` loop after `communicate`: success, one of
the two recognized fault signatures (non-monotonic first), or the
terminal case writing the three `ffmpeg.*` artifacts. -/
def re_mux_step (cmd : List (List Char)) (o : Outcome) : StepR :=
  if o.status = 0 then StepR.ok
  else if containsSub nm_sig o.err then StepR.retry va_map_args
  else
    match searchCodec o.err with
    | some bad => StepR.retry (rebuild_map_args bad (splitOnNl o.err))
    | none =>
      StepR.failure
        [("ffmpeg.stdout".toList, o.out), ("ffmpeg.stderr".toList, o.err),
         ("ffmpeg.sh".toList, joinSp cmd)]

/-- How one `re_mux` call ended. -/
inductive Terminal
  | muxSuccess
  | unrecoverableRemuxError (arts : List (List Char × List Char))
  | pending
  deriving DecidableEq

/-- One recorded loop iteration: the map arguments and command it used. -/
structure Attempt where
  map_args : List (List Char)
  cmd : List (List Char)
  deriving DecidableEq

/-- The trace of one `re_mux` call: its attempts, how it ended (`pending`
when the supplied outcome sequence ran out mid-loop), and whether the raw
dump was deleted (line 237; the terminal case leaves it, line 273). -/
structure RunResult where
  attempts : List Attempt
  terminal : Terminal
  dumpDeleted : Bool
  deriving DecidableEq

/-- The `while True` loop of `re_mux`, driven by a sequence of simulated
multiplexer outcomes. -/
def re_mux_go (tmpfile : List Char) (bag : List (List Char × List Char))
    (stream_defs : List Stream) (outfile : List Char)
    (map_args : List (List Char)) : List Outcome → RunResult
  | [] => ⟨[], Terminal.pending, false⟩
  | o :: os =>
    let cmd := build_cmd tmpfile map_args bag stream_defs outfile
    match re_mux_step cmd o with
    | StepR.ok => ⟨[⟨map_args, cmd⟩], Terminal.muxSuccess, true⟩
    | StepR.retry m2 =>
      let r := re_mux_go tmpfile bag stream_defs outfile m2 os
      ⟨⟨map_args, cmd⟩ :: r.attempts, r.terminal, r.dumpDeleted⟩
    | StepR.failure arts => ⟨[⟨map_args, cmd⟩], Terminal.unrecoverableRemuxError arts, false⟩

/-- `re_mux` from its entry point: wildcard map arguments (line 195). -/
def re_mux (tmpfile : List Char) (bag : List (List Char × List Char))
    (stream_defs : List Stream) (os : List Outcome) : RunResult :=
  re_mux_go tmpfile bag stream_defs (re_mux_outfile bag) all_map_args os

/-- Stream kinds present in a raw dump, for reading the map arguments. -/
inductive SKind
  | video
  | audio
  | subtitle
  deriving DecidableEq

/-- Denotation of the `-map` selector strings this program emits, per the
external multiplexer's documented selector syntax (the spec's StreamMap
reading): `0` selects every input stream, `0:v` and `0:a` every video
and audio stream, and `0:<digits>` the stream with that original index. -/
def sel_matches (sel : List Char) (idx : List Char) (k : SKind) : Bool :=
  sel == "0".toList
  || (sel == "0:v".toList && decide (k = SKind.video))
  || (sel == "0:a".toList && decide (k = SKind.audio))
  || sel == '0' :: ':' :: idx

/-- Whether the map arguments select the stream with original index
`idx` (a digit string) and kind `k`. -/
def map_selects (args : List (List Char)) (idx : List Char) (k : SKind) : Bool :=
  args.any (fun sel => sel_matches sel idx k)

/-! ## Helper lemmas on the sanitizer folds -/

theorem mem_foldl_del {cs s : List Char} {x : Char} :
    x ∈ cs.foldl py_replace_del s ↔ x ∈ s ∧ x ∉ cs := by
  induction cs generalizing s with
  | nil => simp
  | cons c cs ih =>
    simp only [List.foldl_cons, ih, py_replace_del, List.mem_filter, bne_iff_ne,
      List.mem_cons]
    constructor
    · rintro ⟨⟨hs, hne⟩, hncs⟩
      exact ⟨hs, by rintro (rfl | h); exact hne rfl; exact hncs h⟩
    · rintro ⟨hs, hn⟩
      exact ⟨⟨hs, fun h => hn (Or.inl h)⟩, fun h => hn (Or.inr h)⟩

theorem foldl_del_eq_self {cs s : List Char} (h : ∀ x ∈ s, x ∉ cs) :
    cs.foldl py_replace_del s = s := by
  induction cs generalizing s with
  | nil => rfl
  | cons c cs ih =>
    rw [List.foldl_cons]
    have h1 : py_replace_del s c = s := List.filter_eq_self.mpr (fun a ha =>
      bne_iff_ne.mpr (fun e => h a ha (by rw [e]; exact List.mem_cons_self c cs)))
    rw [h1]
    exact ih (fun x hx hc => h x hx (List.mem_cons_of_mem c hc))

theorem mem_foldl_dash {cs s : List Char} {y : Char} (hd : '-' ∉ cs)
    (hy : y ∈ cs.foldl py_replace_dash s) : (y ∈ s ∨ y = '-') ∧ y ∉ cs := by
  induction cs generalizing s with
  | nil => exact ⟨Or.inl hy, by simp⟩
  | cons c cs ih =>
    rw [List.foldl_cons] at hy
    have hd' : '-' ∉ cs := fun h => hd (List.mem_cons_of_mem c h)
    obtain ⟨h1, h2⟩ := ih hd' hy
    have hdc : ('-' : Char) ≠ c := fun e => hd (by rw [e]; exact List.mem_cons_self c cs)
    rcases h1 with h1 | rfl
    · obtain ⟨x, hx, hxy⟩ := List.mem_map.mp h1
      by_cases hxc : x = c
      · subst hxc
        simp only [beq_self_eq_true, if_true] at hxy
        subst hxy
        exact ⟨Or.inr rfl, by
          intro hm
          rcases List.mem_cons.mp hm with h | h
          · exact hdc h
          · exact h2 h⟩
      · have : (x == c) = false := beq_eq_false_iff_ne.mpr hxc
        rw [this] at hxy
        simp only [Bool.false_eq_true, if_false] at hxy
        subst hxy
        exact ⟨Or.inl hx, by
          intro hm
          rcases List.mem_cons.mp hm with h | h
          · exact hxc h
          · exact h2 h⟩
    · exact ⟨Or.inr rfl, by
        intro hm
        rcases List.mem_cons.mp hm with h | h
        · exact hdc h
        · exact h2 h⟩

theorem foldl_dash_eq_self {cs s : List Char} (h : ∀ x ∈ s, x ∉ cs) :
    cs.foldl py_replace_dash s = s := by
  induction cs generalizing s with
  | nil => rfl
  | cons c cs ih =>
    rw [List.foldl_cons]
    have h1 : py_replace_dash s c = s := by
      refine (List.map_congr_left (fun a ha => ?_)).trans (List.map_id s)
      have : (a == c) = false := beq_eq_false_iff_ne.mpr
        (fun e => h a ha (by rw [e]; exact List.mem_cons_self c cs))
      simp [this]
    rw [h1]
    exact ih (fun x hx hc => h x hx (List.mem_cons_of_mem c hc))

theorem filesafe_chars {s : List Char} {y : Char} (hy : y ∈ filesafe s) :
    y.toNat ≤ 127 ∧ y ∉ del_chars ∧ y ∉ dash_chars := by
  unfold filesafe at hy
  by_cases hs : s = []
  · rw [if_pos hs] at hy
    exact absurd hy (List.not_mem_nil y)
  · rw [if_neg hs] at hy
    have hdash : ('-' : Char) ∉ dash_chars := by decide
    obtain ⟨h1, h2⟩ := mem_foldl_dash hdash hy
    rcases h1 with h1 | rfl
    · obtain ⟨h3, h4⟩ := mem_foldl_del.mp h1
      obtain ⟨x, _, hxy⟩ := List.mem_map.mp h3
      refine ⟨?_, h4, h2⟩
      rw [← hxy]
      unfold ascii_replace
      split
      · assumption
      · decide
    · exact ⟨by decide, by decide, h2⟩

theorem filesafe_eq_self {t : List Char}
    (h : ∀ y ∈ t, y.toNat ≤ 127 ∧ y ∉ del_chars ∧ y ∉ dash_chars) :
    filesafe t = t := by
  by_cases ht : t = []
  · rw [ht]; rfl
  · unfold filesafe
    rw [if_neg ht]
    have h1 : t.map ascii_replace = t :=
      (List.map_congr_left (fun a ha => by
        unfold ascii_replace
        rw [if_pos (h a ha).1]
        rfl)).trans (List.map_id t)
    rw [h1, foldl_del_eq_self (fun x hx => (h x hx).2.1)]
    exact foldl_dash_eq_self (fun x hx => (h x hx).2.2)

/-- C10: the filename sanitizer is idempotent: a pass of `filesafe` leaves
only ASCII characters outside both bad-character sets, so applying
`filesafe` to its own output returns it unchanged. -/
theorem filesafe_idempotent (s : List Char) : filesafe (filesafe s) = filesafe s :=
  filesafe_eq_self (fun _ hy => filesafe_chars hy)

/-- C8: the language table is total on its declared domain and nowhere
else: lookup of any string that is not a key of `lang_iso_code` fails
(the `KeyError` the spec calls `UnrecognizedLanguageError`), while every
documented short code resolves to its documented 3-letter code and the
sentinel `unknown` resolves to the default `eng`. -/
theorem lang_lookup_total_on_domain :
    (∀ s : List Char, (∀ p ∈ lang_iso_code, p.1 ≠ s) → lang_lookup s = none) ∧
    (lang_lookup "ar".toList = some "ara".toList ∧
     lang_lookup "cy".toList = some "cym".toList ∧
     lang_lookup "de".toList = some "ger".toList ∧
     lang_lookup "en".toList = some "eng".toList ∧
     lang_lookup "es".toList = some "spa".toList ∧
     lang_lookup "fa".toList = some "fas".toList ∧
     lang_lookup "fr".toList = some "fra".toList ∧
     lang_lookup "ga".toList = some "gle".toList ∧
     lang_lookup "he".toList = some "heb".toList ∧
     lang_lookup "ja".toList = some "jpn".toList ∧
     lang_lookup "ko".toList = some "kor".toList ∧
     lang_lookup "pt".toList = some "por".toList ∧
     lang_lookup "ru".toList = some "rus".toList ∧
     lang_lookup "zh".toList = some "chi".toList ∧
     lang_lookup "unknown".toList = some "eng".toList) := by
  constructor
  · intro s h
    unfold lang_lookup
    rw [List.find?_eq_none.mpr]
    · rfl
    · intro x hx
      simpa using h x hx
  · decide

/-- Witness for C8: the undocumented code `xx` is rejected. -/
theorem lang_lookup_total_on_domain_witness : lang_lookup "xx".toList = none :=
  lang_lookup_total_on_domain.1 ("xx".toList) (by decide)

/-! ## Remuxer theorems -/

/-- C7: a failed attempt matching neither fault signature stops the loop
at once: exactly the three `ffmpeg.*` artifacts (captured stdout,
captured stderr, the joined command line), the raw dump not deleted, and
no further attempt regardless of how many outcomes remain. -/
theorem re_mux_unclassified_terminal
    (tmpfile : List Char) (bag : List (List Char × List Char))
    (stream_defs : List Stream) (o : Outcome) (os : List Outcome)
    (h0 : o.status ≠ 0) (h1 : containsSub nm_sig o.err = false)
    (h2 : searchCodec o.err = none) :
    (re_mux tmpfile bag stream_defs (o :: os)).attempts.length = 1 ∧
    (re_mux tmpfile bag stream_defs (o :: os)).terminal =
      Terminal.unrecoverableRemuxError
        [("ffmpeg.stdout".toList, o.out), ("ffmpeg.stderr".toList, o.err),
         ("ffmpeg.sh".toList,
           joinSp (build_cmd tmpfile all_map_args bag stream_defs (re_mux_outfile bag)))] ∧
    (re_mux tmpfile bag stream_defs (o :: os)).dumpDeleted = false := by
  have hstep : ∀ cmd, re_mux_step cmd o = StepR.failure
      [("ffmpeg.stdout".toList, o.out), ("ffmpeg.stderr".toList, o.err),
       ("ffmpeg.sh".toList, joinSp cmd)] := by
    intro cmd
    unfold re_mux_step
    rw [if_neg h0, if_neg (by rw [h1]; exact Bool.false_ne_true), h2]
  simp [re_mux, re_mux_go, hstep]

/-- Witness for C7. -/
theorem re_mux_unclassified_terminal_witness :
    (re_mux "tmp.vob".toList [] [] [⟨1, "so".toList, "boom".toList⟩,
        ⟨0, [], []⟩]).attempts.length = 1 ∧
    (re_mux "tmp.vob".toList [] [] [⟨1, "so".toList, "boom".toList⟩,
        ⟨0, [], []⟩]).terminal =
      Terminal.unrecoverableRemuxError
        [("ffmpeg.stdout".toList, "so".toList), ("ffmpeg.stderr".toList, "boom".toList),
         ("ffmpeg.sh".toList, joinSp (build_cmd "tmp.vob".toList all_map_args [] []
            (re_mux_outfile [])))] ∧
    (re_mux "tmp.vob".toList [] [] [⟨1, "so".toList, "boom".toList⟩,
        ⟨0, [], []⟩]).dumpDeleted = false :=
  re_mux_unclassified_terminal _ _ _ _ _ (by decide) (by decide) (by decide)

theorem re_mux_go_classified (tmpfile : List Char) (bag : List (List Char × List Char))
    (stream_defs : List Stream) (outfile : List Char) (os : List Outcome)
    (h : ∀ o ∈ os, o.status ≠ 0 ∧
        (containsSub nm_sig o.err = true ∨ (searchCodec o.err).isSome = true)) :
    ∀ m, (re_mux_go tmpfile bag stream_defs outfile m os).attempts.length = os.length ∧
      (re_mux_go tmpfile bag stream_defs outfile m os).terminal = Terminal.pending := by
  induction os with
  | nil => exact fun m => ⟨rfl, rfl⟩
  | cons o os ih =>
    intro m
    obtain ⟨h0, hcl⟩ := h o (List.mem_cons_self o os)
    have h' := fun x hx => h x (List.mem_cons_of_mem o hx)
    by_cases h1 : containsSub nm_sig o.err = true
    · have hstep : re_mux_step (build_cmd tmpfile m bag stream_defs outfile) o =
          StepR.retry va_map_args := by
        unfold re_mux_step
        rw [if_neg h0, if_pos h1]
      simp only [re_mux_go, hstep]
      obtain ⟨ha, ht⟩ := ih h' va_map_args
      constructor
      · simpa using ha
      · simpa using ht
    · have h2 : (searchCodec o.err).isSome = true := by
        rcases hcl with hc | hc
        · exact absurd hc h1
        · exact hc
      obtain ⟨bad, hbad⟩ := Option.isSome_iff_exists.mp h2
      have hstep : re_mux_step (build_cmd tmpfile m bag stream_defs outfile) o =
          StepR.retry (rebuild_map_args bad (splitOnNl o.err)) := by
        unfold re_mux_step
        rw [if_neg h0, if_neg h1, hbad]
      simp only [re_mux_go, hstep]
      obtain ⟨ha, ht⟩ := ih h' (rebuild_map_args bad (splitOnNl o.err))
      constructor
      · simpa using ha
      · simpa using ht

/-- C1 (amended): the retry loop has no retry counter and no bound: as
long as every failure carries one of the two recognized signatures the
loop keeps retrying, consuming one attempt per multiplexer outcome for
outcome sequences of arbitrary length; it stops of itself only on
success or on an unclassified failure. -/
theorem re_mux_attempts_unbounded (tmpfile : List Char)
    (bag : List (List Char × List Char)) (stream_defs : List Stream)
    (os : List Outcome)
    (h : ∀ o ∈ os, o.status ≠ 0 ∧
        (containsSub nm_sig o.err = true ∨ (searchCodec o.err).isSome = true)) :
    (re_mux tmpfile bag stream_defs os).attempts.length = os.length ∧
    (re_mux tmpfile bag stream_defs os).terminal = Terminal.pending :=
  re_mux_go_classified tmpfile bag stream_defs (re_mux_outfile bag) os h all_map_args

/-- Witness for C1's amended theorem. -/
theorem re_mux_attempts_unbounded_witness :
    (re_mux "tmp.vob".toList [] [] [⟨1, [], nm_sig⟩]).attempts.length = 1 ∧
    (re_mux "tmp.vob".toList [] [] [⟨1, [], nm_sig⟩]).terminal = Terminal.pending :=
  re_mux_attempts_unbounded _ _ _ _ (by decide)

/-- Counterexample to C1 as stated: a sequence of six recognized failures
drives six attempts — more than the claimed bound of five — and the loop
is still retrying rather than in the unclassified terminal case. -/
theorem re_mux_bound_cex :
    (re_mux "tmp.vob".toList [] []
        (List.replicate 6 ⟨1, [], nm_sig⟩)).attempts.length = 6 ∧
    (re_mux "tmp.vob".toList [] []
        (List.replicate 6 ⟨1, [], nm_sig⟩)).terminal = Terminal.pending ∧
    ¬ (re_mux "tmp.vob".toList [] []
        (List.replicate 6 ⟨1, [], nm_sig⟩)).attempts.length ≤ 5 := by
  decide

/-- C3: a failed attempt whose stderr contains the non-monotonic-timestamp
signature — the codec-parameters signature may also be present, the
non-monotonic check has priority — retries with the video-and-audio map
arguments, which select no subtitle stream of any index; the next
attempt, when one happens, uses exactly those arguments. -/
theorem re_mux_non_monotonic_drops_subtitles
    (cmd : List (List Char)) (o : Outcome)
    (h0 : o.status ≠ 0) (h1 : containsSub nm_sig o.err = true) :
    re_mux_step cmd o = StepR.retry va_map_args ∧
    (∀ idx : List Char, (∀ c ∈ idx, c.isDigit = true) →
        map_selects va_map_args idx SKind.subtitle = false) ∧
    (∀ tmpfile bag stream_defs outfile m o2 os2,
        ((re_mux_go tmpfile bag stream_defs outfile m (o :: o2 :: os2)).attempts.map
            Attempt.map_args).getD 1 [] = va_map_args) := by
  have hstep : ∀ c, re_mux_step c o = StepR.retry va_map_args := by
    intro c
    unfold re_mux_step
    rw [if_neg h0, if_pos h1]
  refine ⟨hstep cmd, ?_, ?_⟩
  · intro idx hd
    cases idx with
    | nil => decide
    | cons c cs =>
      have hc : c.isDigit = true := hd c (List.mem_cons_self c cs)
      have hv : ('v' == c) = false := by
        cases hb : ('v' == c)
        · rfl
        · exfalso
          have := beq_iff_eq.mp hb
          subst this
          exact absurd hc (by decide)
      have ha2 : ('a' == c) = false := by
        cases hb : ('a' == c)
        · rfl
        · exfalso
          have := beq_iff_eq.mp hb
          subst this
          exact absurd hc (by decide)
      simp [map_selects, va_map_args, sel_matches, hv, ha2]
  · intro tmpfile bag stream_defs outfile m o2 os2
    simp only [re_mux_go, hstep]
    cases hs2 : re_mux_step (build_cmd tmpfile va_map_args bag stream_defs outfile) o2 <;>
      simp [re_mux_go, hs2]

/-- Witness for C3, on a stderr carrying both fault signatures: the
non-monotonic classification wins. -/
theorem re_mux_non_monotonic_drops_subtitles_witness :
    re_mux_step []
        ⟨1, [], ("x non monotonically increasing dts y "
          ++ "Could not find codec parameters for stream 2").toList⟩ =
      StepR.retry va_map_args ∧
    (∀ idx : List Char, (∀ c ∈ idx, c.isDigit = true) →
        map_selects va_map_args idx SKind.subtitle = false) ∧
    (∀ tmpfile bag stream_defs outfile m o2 os2,
        ((re_mux_go tmpfile bag stream_defs outfile m
            (⟨1, [], ("x non monotonically increasing dts y "
              ++ "Could not find codec parameters for stream 2").toList⟩
              :: o2 :: os2)).attempts.map Attempt.map_args).getD 1 [] = va_map_args) :=
  re_mux_non_monotonic_drops_subtitles _ _ (by decide) (by decide)

/-- The stderr lines before the first line opening the output section. -/
def preOutputLines (err : List Char) : List (List Char) :=
  (splitOnNl err).takeWhile (fun l => !(hasPre output0_sig l))

theorem mem_rebuild_map_args {bad s : List Char} {lines : List (List Char)} :
    ('0' :: ':' :: s) ∈ rebuild_map_args bad lines ↔
      s ≠ bad ∧ ∃ l ∈ lines.takeWhile (fun l => !(hasPre output0_sig l)),
        searchStream0 l = some s := by
  induction lines with
  | nil => simp [rebuild_map_args]
  | cons line rest ih =>
    by_cases hout : hasPre output0_sig line = true
    · simp [rebuild_map_args, hout, List.takeWhile_cons]
    · cases hsrch : searchStream0 line with
      | none =>
        simp only [rebuild_map_args, hout, Bool.false_eq_true, if_false, hsrch,
          List.takeWhile_cons, Bool.not_false, ih]
        rw [if_pos trivial]
        constructor
        · rintro ⟨hne, l, hl, hs⟩
          exact ⟨hne, l, List.mem_cons_of_mem _ hl, hs⟩
        · rintro ⟨hne, l, hl, hs⟩
          rcases List.mem_cons.mp hl with rfl | hl
          · exact absurd hs (by rw [hsrch]; exact fun h => Option.noConfusion h)
          · exact ⟨hne, l, hl, hs⟩
      | some g =>
        by_cases hgb : (g == bad) = true
        · have hg : g = bad := beq_iff_eq.mp hgb
          subst hg
          simp only [rebuild_map_args, hout, Bool.false_eq_true, if_false, hsrch, hgb,
            if_true, List.takeWhile_cons, Bool.not_false, ih]
          constructor
          · rintro ⟨hne, l, hl, hs⟩
            exact ⟨hne, l, List.mem_cons_of_mem _ hl, hs⟩
          · rintro ⟨hne, l, hl, hs⟩
            rcases List.mem_cons.mp hl with rfl | hl
            · rw [hsrch] at hs
              exact absurd (Option.some.inj hs).symm hne
            · exact ⟨hne, l, hl, hs⟩
        · have hg : g ≠ bad := fun e => hgb (beq_iff_eq.mpr e)
          simp only [rebuild_map_args, hout, Bool.false_eq_true, if_false, hsrch, hgb,
            List.takeWhile_cons, Bool.not_false, List.mem_cons, ih]
          rw [if_pos trivial]
          constructor
          · rintro (hmap | h0g | ⟨hne, l, hl, hs⟩)
            · exact absurd hmap (by simp)
            · have hsg : s = g := by
                injection h0g with e1 h0g2
                injection h0g2 with e2 h0g3
              subst hsg
              exact ⟨hg, line, List.mem_cons_self _ _, hsrch⟩
            · exact ⟨hne, l, List.mem_cons_of_mem _ hl, hs⟩
          · rintro ⟨hne, l, hl, hs⟩
            rcases List.mem_cons.mp hl with rfl | hl
            · rw [hsrch] at hs
              have : g = s := Option.some.inj hs
              subst this
              exact Or.inr (Or.inl rfl)
            · exact Or.inr (Or.inr ⟨hne, l, hl, hs⟩)

/-- C2: a failed attempt matching the codec-parameters signature (and not
the non-monotonic one) retries with map arguments rebuilt from the
tool's own pre-output stream listing: an index selector `0:s` is emitted
exactly for the captures `s` of `Stream #0:(digits)` on the stderr lines
before the first `Output #0` line, excluding exactly the bad capture;
the next attempt, when one happens, uses exactly those arguments. -/
theorem re_mux_codec_params_rebuild
    (cmd : List (List Char)) (o : Outcome) (bad : List Char)
    (h0 : o.status ≠ 0) (h1 : containsSub nm_sig o.err = false)
    (h2 : searchCodec o.err = some bad) :
    re_mux_step cmd o = StepR.retry (rebuild_map_args bad (splitOnNl o.err)) ∧
    (∀ s : List Char, ('0' :: ':' :: s) ∈ rebuild_map_args bad (splitOnNl o.err) ↔
        (s ≠ bad ∧ ∃ l ∈ preOutputLines o.err, searchStream0 l = some s)) ∧
    (∀ tmpfile bag stream_defs outfile m o2 os2,
        ((re_mux_go tmpfile bag stream_defs outfile m (o :: o2 :: os2)).attempts.map
            Attempt.map_args).getD 1 [] = rebuild_map_args bad (splitOnNl o.err)) := by
  have hstep : ∀ c, re_mux_step c o =
      StepR.retry (rebuild_map_args bad (splitOnNl o.err)) := by
    intro c
    unfold re_mux_step
    rw [if_neg h0, if_neg (by rw [h1]; exact Bool.false_ne_true), h2]
  refine ⟨hstep cmd, ?_, ?_⟩
  · intro s
    simpa [preOutputLines] using
      (@mem_rebuild_map_args bad s (splitOnNl o.err))
  · intro tmpfile bag stream_defs outfile m o2 os2
    simp only [re_mux_go, hstep]
    cases hs2 : re_mux_step (build_cmd tmpfile (rebuild_map_args bad (splitOnNl o.err))
        bag stream_defs outfile) o2 <;>
      simp [re_mux_go, hs2]

/-- Witness for C2, on the spec's example: a failure naming stream 3 with
a four-stream pre-output listing. -/
theorem re_mux_codec_params_rebuild_witness :
    re_mux_step []
        ⟨1, [], ("Input #0, mpeg\n  Stream #0:0[0x1e0]: Video\n"
          ++ "  Stream #0:1[0x80]: Audio\n  Stream #0:2[0x81]: Audio\n"
          ++ "  Stream #0:3[0x20]: Subtitle\n"
          ++ "Could not find codec parameters for stream 3\n"
          ++ "Output #0\n  Stream #0:9: junk").toList⟩ =
      StepR.retry (rebuild_map_args "3".toList (splitOnNl
        ("Input #0, mpeg\n  Stream #0:0[0x1e0]: Video\n"
          ++ "  Stream #0:1[0x80]: Audio\n  Stream #0:2[0x81]: Audio\n"
          ++ "  Stream #0:3[0x20]: Subtitle\n"
          ++ "Could not find codec parameters for stream 3\n"
          ++ "Output #0\n  Stream #0:9: junk").toList)) ∧
    (∀ s : List Char, ('0' :: ':' :: s) ∈ rebuild_map_args "3".toList (splitOnNl
        ("Input #0, mpeg\n  Stream #0:0[0x1e0]: Video\n"
          ++ "  Stream #0:1[0x80]: Audio\n  Stream #0:2[0x81]: Audio\n"
          ++ "  Stream #0:3[0x20]: Subtitle\n"
          ++ "Could not find codec parameters for stream 3\n"
          ++ "Output #0\n  Stream #0:9: junk").toList) ↔
        (s ≠ "3".toList ∧ ∃ l ∈ preOutputLines
          ("Input #0, mpeg\n  Stream #0:0[0x1e0]: Video\n"
            ++ "  Stream #0:1[0x80]: Audio\n  Stream #0:2[0x81]: Audio\n"
            ++ "  Stream #0:3[0x20]: Subtitle\n"
            ++ "Could not find codec parameters for stream 3\n"
            ++ "Output #0\n  Stream #0:9: junk").toList,
          searchStream0 l = some s)) ∧
    (∀ tmpfile bag stream_defs outfile m o2 os2,
        ((re_mux_go tmpfile bag stream_defs outfile m
            (⟨1, [], ("Input #0, mpeg\n  Stream #0:0[0x1e0]: Video\n"
              ++ "  Stream #0:1[0x80]: Audio\n  Stream #0:2[0x81]: Audio\n"
              ++ "  Stream #0:3[0x20]: Subtitle\n"
              ++ "Could not find codec parameters for stream 3\n"
              ++ "Output #0\n  Stream #0:9: junk").toList⟩
              :: o2 :: os2)).attempts.map Attempt.map_args).getD 1 [] =
          rebuild_map_args "3".toList (splitOnNl
            ("Input #0, mpeg\n  Stream #0:0[0x1e0]: Video\n"
              ++ "  Stream #0:1[0x80]: Audio\n  Stream #0:2[0x81]: Audio\n"
              ++ "  Stream #0:3[0x20]: Subtitle\n"
              ++ "Could not find codec parameters for stream 3\n"
              ++ "Output #0\n  Stream #0:9: junk").toList)) :=
  re_mux_codec_params_rebuild _ _ _ (by decide) (by decide) (by decide)

/-! ## MetadataTagger theorems -/

/-- Count of descriptors of one kind, for kind-relative ordinals. -/
def countKind (k : SType) (l : List Stream) : Nat :=
  l.countP (fun t => t.type == k)

/-- The address part of one tagging directive, from the descriptor's kind
and the two counters reached before it. -/
def tag_addr_c (st : SType) (ac sc : Nat) : List Char :=
  match st with
  | SType.audio => "-metadata:s:a:".toList ++ (Nat.repr ac).toList
  | SType.subtitle => "-metadata:s:s:".toList ++ (Nat.repr sc).toList

theorem tags_go_length (l : List Stream) :
    ∀ a s, (stream_language_tags_go a s l).length = 2 * l.length := by
  induction l with
  | nil => intro a s; rfl
  | cons x xs ih =>
    intro a s
    cases hx : x.type
    all_goals simp [stream_language_tags_go, hx, ih]
    all_goals omega

theorem tags_go_get (l : List Stream) :
    ∀ (a s i : Nat) (h : i < l.length),
      (stream_language_tags_go a s l)[2 * i]? =
        some (tag_addr_c (l.get ⟨i, h⟩).type
          (a + countKind SType.audio (l.take i))
          (s + countKind SType.subtitle (l.take i))) ∧
      (stream_language_tags_go a s l)[2 * i + 1]? =
        some ("language=".toList ++ (l.get ⟨i, h⟩).language) := by
  induction l with
  | nil => intro a s i h; exact absurd h (Nat.not_lt_zero i)
  | cons x xs ih =>
    intro a s i h
    cases i with
    | zero =>
      cases hx : x.type
      all_goals simp [stream_language_tags_go, hx, tag_addr_c, countKind]
    | succ j =>
      have hj : j < xs.length := Nat.lt_of_succ_lt_succ h
      have e2 : 2 * (j + 1) = 2 * j + 1 + 1 := by ring
      have e3 : 2 * (j + 1) + 1 = 2 * j + 1 + 1 + 1 := by ring
      have hget : (x :: xs).get ⟨j + 1, h⟩ = xs.get ⟨j, hj⟩ := by
        simp [List.get_cons_succ]
      cases hx : x.type
      · have hca : countKind SType.audio ((x :: xs).take (j + 1)) =
            countKind SType.audio (xs.take j) + 1 := by
          have hb : (x.type == SType.audio) = true := by rw [hx]; rfl
          simp [countKind, List.take_succ_cons, List.countP_cons, hb]
        have hcs : countKind SType.subtitle ((x :: xs).take (j + 1)) =
            countKind SType.subtitle (xs.take j) := by
          have hb : (x.type == SType.subtitle) = false := by rw [hx]; rfl
          simp [countKind, List.take_succ_cons, List.countP_cons, hb]
        obtain ⟨ih1, ih2⟩ := ih (a + 1) s j hj
        constructor
        · rw [e2, hget, hca, hcs]
          have l1 : (stream_language_tags_go a s (x :: xs))[2 * j + 1 + 1]? =
              (stream_language_tags_go (a + 1) s xs)[2 * j]? := by
            simp [stream_language_tags_go, hx, List.getElem?_cons_succ]
          rw [l1, ih1]
          have harith : a + 1 + countKind SType.audio (xs.take j) =
              a + (countKind SType.audio (xs.take j) + 1) := by omega
          rw [harith]
        · rw [e3, hget]
          have l1 : (stream_language_tags_go a s (x :: xs))[2 * j + 1 + 1 + 1]? =
              (stream_language_tags_go (a + 1) s xs)[2 * j + 1]? := by
            simp [stream_language_tags_go, hx, List.getElem?_cons_succ]
          rw [l1, ih2]
      · have hca : countKind SType.audio ((x :: xs).take (j + 1)) =
            countKind SType.audio (xs.take j) := by
          have hb : (x.type == SType.audio) = false := by rw [hx]; rfl
          simp [countKind, List.take_succ_cons, List.countP_cons, hb]
        have hcs : countKind SType.subtitle ((x :: xs).take (j + 1)) =
            countKind SType.subtitle (xs.take j) + 1 := by
          have hb : (x.type == SType.subtitle) = true := by rw [hx]; rfl
          simp [countKind, List.take_succ_cons, List.countP_cons, hb]
        obtain ⟨ih1, ih2⟩ := ih a (s + 1) j hj
        constructor
        · rw [e2, hget, hca, hcs]
          have l1 : (stream_language_tags_go a s (x :: xs))[2 * j + 1 + 1]? =
              (stream_language_tags_go a (s + 1) xs)[2 * j]? := by
            simp [stream_language_tags_go, hx, List.getElem?_cons_succ]
          rw [l1, ih1]
          have harith : s + 1 + countKind SType.subtitle (xs.take j) =
              s + (countKind SType.subtitle (xs.take j) + 1) := by omega
          rw [harith]
        · rw [e3, hget]
          have l1 : (stream_language_tags_go a s (x :: xs))[2 * j + 1 + 1 + 1]? =
              (stream_language_tags_go a (s + 1) xs)[2 * j + 1]? := by
            simp [stream_language_tags_go, hx, List.getElem?_cons_succ]
          rw [l1, ih2]

/-- C4 (amended): on every remux attempt the command — hence the set of
language-tag directives inside it — is built from the one, original,
full descriptor sequence `stream_defs`, regardless of the current map
arguments; the directive list is the fixed pure function of that full
sequence, giving descriptor `i` one address with its kind-relative
ordinal within the full sequence and one `language=` value.  Streams
dropped from the map by fault-driven narrowing therefore still receive
directives. -/
theorem re_mux_tags_independent_of_map
    (tmpfile : List Char) (bag : List (List Char × List Char))
    (stream_defs : List Stream) (outfile : List Char) (m : List (List Char))
    (os : List Outcome) :
    (∀ att ∈ (re_mux_go tmpfile bag stream_defs outfile m os).attempts,
        att.cmd = build_cmd tmpfile att.map_args bag stream_defs outfile) ∧
    (stream_language_tags stream_defs).length = 2 * stream_defs.length ∧
    (∀ i (h : i < stream_defs.length),
        (stream_language_tags stream_defs)[2 * i]? =
          some (tag_addr_c (stream_defs.get ⟨i, h⟩).type
            (countKind SType.audio (stream_defs.take i))
            (countKind SType.subtitle (stream_defs.take i))) ∧
        (stream_language_tags stream_defs)[2 * i + 1]? =
          some ("language=".toList ++ (stream_defs.get ⟨i, h⟩).language)) := by
  refine ⟨?_, tags_go_length stream_defs 0 0, ?_⟩
  · induction os generalizing m with
    | nil => intro att hatt; exact absurd hatt (List.not_mem_nil att)
    | cons o os ih =>
      intro att hatt
      simp only [re_mux_go] at hatt
      cases hs : re_mux_step (build_cmd tmpfile m bag stream_defs outfile) o <;>
          rw [hs] at hatt
      · rcases List.mem_cons.mp hatt with rfl | hatt
        · rfl
        · exact absurd hatt (List.not_mem_nil att)
      · rcases List.mem_cons.mp hatt with rfl | hatt
        · rfl
        · exact ih _ att hatt
      · rcases List.mem_cons.mp hatt with rfl | hatt
        · rfl
        · exact absurd hatt (List.not_mem_nil att)
  · intro i h
    have := tags_go_get stream_defs 0 0 i h
    simpa [stream_language_tags] using this

/-- Witness for C4's amended theorem, at a two-descriptor sequence. -/
theorem re_mux_tags_independent_of_map_witness :
    (∀ att ∈ (re_mux_go "tmp.vob".toList [] [⟨SType.audio, none, "eng".toList⟩]
        "o.mp4".toList all_map_args []).attempts,
        att.cmd = build_cmd "tmp.vob".toList att.map_args []
          [⟨SType.audio, none, "eng".toList⟩] "o.mp4".toList) ∧
    (stream_language_tags [⟨SType.audio, none, "eng".toList⟩]).length =
      2 * ([⟨SType.audio, none, "eng".toList⟩] : List Stream).length ∧
    (∀ i (h : i < ([⟨SType.audio, none, "eng".toList⟩] : List Stream).length),
        (stream_language_tags [⟨SType.audio, none, "eng".toList⟩])[2 * i]? =
          some (tag_addr_c (([⟨SType.audio, none, "eng".toList⟩] : List Stream).get
              ⟨i, h⟩).type
            (countKind SType.audio (([⟨SType.audio, none, "eng".toList⟩] :
              List Stream).take i))
            (countKind SType.subtitle (([⟨SType.audio, none, "eng".toList⟩] :
              List Stream).take i))) ∧
        (stream_language_tags [⟨SType.audio, none, "eng".toList⟩])[2 * i + 1]? =
          some ("language=".toList ++ (([⟨SType.audio, none, "eng".toList⟩] :
            List Stream).get ⟨i, h⟩).language)) :=
  re_mux_tags_independent_of_map "tmp.vob".toList [] [⟨SType.audio, none, "eng".toList⟩]
    "o.mp4".toList all_map_args []

/-- Counterexample to C4 as stated: after a non-monotonic fault drops all
subtitle streams from the map, the second attempt's command still
carries the subtitle tagging directive `-metadata:s:s:0`. -/
theorem re_mux_tags_cex :
    ((re_mux "tmp.vob".toList [("title".toList, "T".toList)]
        [⟨SType.audio, none, "eng".toList⟩, ⟨SType.subtitle, none, "eng".toList⟩]
        [⟨1, [], nm_sig⟩, ⟨0, [], []⟩]).attempts.map Attempt.map_args).getD 1 [] =
      va_map_args ∧
    map_selects va_map_args "1".toList SKind.subtitle = false ∧
    "-metadata:s:s:0".toList ∈
      ((re_mux "tmp.vob".toList [("title".toList, "T".toList)]
        [⟨SType.audio, none, "eng".toList⟩, ⟨SType.subtitle, none, "eng".toList⟩]
        [⟨1, [], nm_sig⟩, ⟨0, [], []⟩]).attempts.getD 1 ⟨[], []⟩).cmd := by
  decide

/-! ## MetadataExtractor theorems -/

/-- The descriptors one line contributes, with the error case projected
away; used to state the order of the extracted sequence. -/
def line_descs (line : List Char) : List Stream := (line_streams line).getD []

theorem line_streams_length {line : List Char} {ss : List Stream}
    (h : line_streams line = some ss) :
    ss.length = (if (audio_match line).isSome then 1 else 0)
      + (if (subtitle_match line).isSome then 1 else 0) := by
  unfold line_streams at h
  cases ha : audio_match line with
  | some g =>
    obtain ⟨g1, g2, g3⟩ := g
    simp only [ha] at h
    cases hla : lang_lookup g3 with
    | none => simp [hla] at h
    | some code =>
      simp only [hla] at h
      cases hs : subtitle_match line with
      | some g4 =>
        simp only [hs] at h
        cases hlb : lang_lookup g4 with
        | none => simp [hlb] at h
        | some c2 =>
          simp only [hlb, Option.some.injEq] at h
          subst h
          simp [ha, hs]
      | none =>
        simp only [hs, Option.some.injEq] at h
        subst h
        simp [ha, hs]
  | none =>
    simp only [ha] at h
    cases hs : subtitle_match line with
    | some g4 =>
      simp only [hs] at h
      cases hlb : lang_lookup g4 with
      | none => simp [hlb] at h
      | some c2 =>
        simp only [hlb, Option.some.injEq] at h
        subst h
        simp [ha, hs]
    | none =>
      simp only [hs, Option.some.injEq] at h
      subst h
      simp [ha, hs]

/-- C9: when every matching line's language code resolves, the extraction
succeeds and returns one descriptor per audio-pattern match plus one per
subtitle-pattern match — `k + m` in total — concatenated in the order
the lines occur, audio and subtitle interleaved as discovered. -/
theorem parse_metadata_counts (lines : List (List Char))
    (h : ∀ l ∈ lines, line_streams (pystrip l) ≠ none) :
    parse_metadata lines = some (lines.flatMap (fun l => line_descs (pystrip l))) ∧
    (lines.flatMap (fun l => line_descs (pystrip l))).length =
      lines.countP (fun l => (audio_match (pystrip l)).isSome)
        + lines.countP (fun l => (subtitle_match (pystrip l)).isSome) := by
  induction lines with
  | nil => exact ⟨rfl, rfl⟩
  | cons l rest ih =>
    have hl : line_streams (pystrip l) ≠ none := h l (List.mem_cons_self l rest)
    obtain ⟨h1, h2⟩ := ih (fun x hx => h x (List.mem_cons_of_mem l hx))
    cases hss : line_streams (pystrip l) with
    | none => exact absurd hss hl
    | some ss =>
      have hdescs : line_descs (pystrip l) = ss := by simp [line_descs, hss]
      constructor
      · simp only [parse_metadata, hss, h1, List.flatMap_cons, hdescs]
      · have hlen := line_streams_length hss
        simp only [List.flatMap_cons, List.length_append, hdescs,
          List.countP_cons]
        rw [hlen, h2]
        cases hA : (audio_match (pystrip l)).isSome <;>
          cases hS : (subtitle_match (pystrip l)).isSome <;>
            simp [hA, hS] <;> omega

/-- Witness for C9, on a log with one audio line, one junk line, and one
subtitle line. -/
theorem parse_metadata_counts_witness :
    parse_metadata ["audio stream: 0 format: ac3 (5.1) language: en aid: 128.".toList,
        "junk".toList, "subtitle ( sid ): 1 language: fr".toList] =
      some ((["audio stream: 0 format: ac3 (5.1) language: en aid: 128.".toList,
        "junk".toList, "subtitle ( sid ): 1 language: fr".toList]).flatMap
          (fun l => line_descs (pystrip l))) ∧
    ((["audio stream: 0 format: ac3 (5.1) language: en aid: 128.".toList,
        "junk".toList, "subtitle ( sid ): 1 language: fr".toList]).flatMap
          (fun l => line_descs (pystrip l))).length =
      (["audio stream: 0 format: ac3 (5.1) language: en aid: 128.".toList,
        "junk".toList, "subtitle ( sid ): 1 language: fr".toList]).countP
          (fun l => (audio_match (pystrip l)).isSome)
        + (["audio stream: 0 format: ac3 (5.1) language: en aid: 128.".toList,
        "junk".toList, "subtitle ( sid ): 1 language: fr".toList]).countP
          (fun l => (subtitle_match (pystrip l)).isSome) :=
  parse_metadata_counts _ (by decide)

/-! ## TitleSelector: order lemmas for the duration-string comparison -/

theorem strLt_irrefl (a : List Char) : strLt a a = false := by
  induction a with
  | nil => rfl
  | cons c cs ih => simp [strLt, ih]

theorem strLt_asymm {a b : List Char} (h : strLt a b = true) : strLt b a = false := by
  induction a generalizing b with
  | nil =>
    cases b with
    | nil => simp [strLt] at h
    | cons d ds => rfl
  | cons c cs ih =>
    cases b with
    | nil => simp [strLt] at h
    | cons d ds =>
      rw [strLt] at h ⊢
      by_cases h1 : c < d
      · rw [if_neg (lt_asymm h1), if_pos h1]
      · by_cases h2 : d < c
        · rw [if_neg h1, if_pos h2] at h
          exact Bool.noConfusion h
        · rw [if_neg h1, if_neg h2] at h
          rw [if_neg h2, if_neg h1]
          exact ih h

theorem strLt_trans {a b c : List Char} (h1 : strLt a b = true)
    (h2 : strLt b c = true) : strLt a c = true := by
  induction a generalizing b c with
  | nil =>
    cases c with
    | nil =>
      cases b with
      | nil => simp [strLt] at h1
      | cons y ys => simp [strLt] at h2
    | cons z zs => rfl
  | cons x xs ih =>
    cases b with
    | nil => simp [strLt] at h1
    | cons y ys =>
      cases c with
      | nil => simp [strLt] at h2
      | cons z zs =>
        rw [strLt] at h1 h2 ⊢
        by_cases hxy : x < y
        · by_cases hyz : y < z
          · rw [if_pos (lt_trans hxy hyz)]
          · by_cases hzy : z < y
            · rw [if_neg hyz, if_pos hzy] at h2
              exact Bool.noConfusion h2
            · have he : y = z := le_antisymm (le_of_not_lt hzy) (le_of_not_lt hyz)
              subst he
              rw [if_pos hxy]
        · by_cases hyx : y < x
          · rw [if_neg hxy, if_pos hyx] at h1
            exact Bool.noConfusion h1
          · have he : x = y := le_antisymm (le_of_not_lt hyx) (le_of_not_lt hxy)
            subst he
            rw [if_neg hxy, if_neg hyx] at h1
            by_cases hxz : x < z
            · rw [if_pos hxz]
            · by_cases hzx : z < x
              · rw [if_neg hxz, if_pos hzx] at h2
                exact Bool.noConfusion h2
              · rw [if_neg hxz, if_neg hzx] at h2 ⊢
                exact ih h1 h2

theorem strLt_eq_of_not {a b : List Char} (h1 : strLt a b = false)
    (h2 : strLt b a = false) : a = b := by
  induction a generalizing b with
  | nil =>
    cases b with
    | nil => rfl
    | cons d ds => simp [strLt] at h1
  | cons c cs ih =>
    cases b with
    | nil => simp [strLt] at h2
    | cons d ds =>
      rw [strLt] at h1 h2
      by_cases hcd : c < d
      · rw [if_pos hcd] at h1
        exact Bool.noConfusion h1
      · by_cases hdc : d < c
        · rw [if_pos hdc] at h2
          exact Bool.noConfusion h2
        · have he : c = d := le_antisymm (le_of_not_lt hdc) (le_of_not_lt hcd)
          subst he
          rw [if_neg hcd, if_neg hcd] at h1
          rw [if_neg hdc, if_neg hdc] at h2
          rw [ih h1 h2]

theorem strLt_of_lt_of_not_lt {x y z : List Char} (h1 : strLt y x = true)
    (h2 : strLt y z = false) : strLt z x = true := by
  cases hzx : strLt z x with
  | true => rfl
  | false =>
    exfalso
    cases hxz : strLt x z with
    | true =>
      have := strLt_trans h1 hxz
      rw [this] at h2
      exact Bool.noConfusion h2
    | false =>
      have hxe : x = z := strLt_eq_of_not hxz hzx
      rw [hxe] at h1
      rw [h1] at h2
      exact Bool.noConfusion h2

/-! ## Generic lemmas on the stable insertion sort -/

theorem insBefore_perm {α : Type} (bef : α → α → Bool) (x : α) (l : List α) :
    List.Perm (insBefore bef x l) (x :: l) := by
  induction l with
  | nil => exact List.Perm.refl _
  | cons y ys ih =>
    unfold insBefore
    by_cases h : bef x y = true
    · rw [if_pos h]
    · rw [if_neg h]
      exact (ih.cons y).trans (List.Perm.swap x y ys)

theorem foldl_ins_perm {α : Type} (bef : α → α → Bool) (l : List α) :
    ∀ acc, List.Perm (l.foldl (fun acc x => insBefore bef x acc) acc) (acc ++ l) := by
  induction l with
  | nil => intro acc; simp
  | cons x xs ih =>
    intro acc
    rw [List.foldl_cons]
    refine (ih (insBefore bef x acc)).trans ?_
    refine (List.Perm.append_right xs (insBefore_perm bef x acc)).trans ?_
    exact (List.perm_middle).symm

theorem pysort_perm {α : Type} (bef : α → α → Bool) (l : List α) :
    List.Perm (pysort bef l) l := by
  simpa using foldl_ins_perm bef l []

theorem insBefore_pairwise {α : Type} {bef : α → α → Bool}
    (hasym : ∀ a b, bef a b = true → bef b a = false)
    (htrans : ∀ a b c, bef a b = true → bef b c = true → bef a c = true)
    {l : List α} (hl : List.Pairwise (fun a b => bef b a = false) l) (x : α) :
    List.Pairwise (fun a b => bef b a = false) (insBefore bef x l) := by
  induction l with
  | nil => simp [insBefore]
  | cons y ys ih =>
    obtain ⟨hy, hys⟩ := List.pairwise_cons.mp hl
    unfold insBefore
    by_cases h : bef x y = true
    · rw [if_pos h]
      refine List.pairwise_cons.mpr ⟨?_, hl⟩
      intro z hz
      rcases List.mem_cons.mp hz with rfl | hz
      · exact hasym _ _ h
      · cases hzx : bef z x with
        | false => rfl
        | true =>
          have := htrans _ _ _ hzx h
          rw [hy z hz] at this
          exact Bool.noConfusion this
    · rw [if_neg h]
      refine List.pairwise_cons.mpr ⟨?_, ih hys⟩
      intro z hz
      have hmem : z = x ∨ z ∈ ys := by
        have := (insBefore_perm bef x ys).mem_iff.mp hz
        simpa using this
      rcases hmem with rfl | hz2
      · exact (Bool.not_eq_true _).mp h
      · exact hy z hz2

theorem pysort_pairwise {α : Type} {bef : α → α → Bool}
    (hasym : ∀ a b, bef a b = true → bef b a = false)
    (htrans : ∀ a b c, bef a b = true → bef b c = true → bef a c = true)
    (l : List α) :
    List.Pairwise (fun a b => bef b a = false) (pysort bef l) := by
  suffices hgen : ∀ (l acc : List α),
      List.Pairwise (fun a b => bef b a = false) acc →
      List.Pairwise (fun a b => bef b a = false)
        (l.foldl (fun acc x => insBefore bef x acc) acc) by
    exact hgen l [] List.Pairwise.nil
  intro l
  induction l with
  | nil => exact fun acc h => h
  | cons x xs ih =>
    intro acc h
    rw [List.foldl_cons]
    exact ih _ (insBefore_pairwise hasym htrans h x)

/-! ## Stability of the duration sort -/

theorem insBefore_filter_key {α : Type} (key : α → List Char) (d : List Char)
    (x : α) : ∀ (l : List α),
    List.Pairwise (fun a b => strLt (key a) (key b) = false) l →
    (insBefore (fun a b => strLt (key b) (key a)) x l).filter
        (fun y => key y == d) =
      (if key x = d then l.filter (fun y => key y == d) ++ [x]
       else l.filter (fun y => key y == d)) := by
  intro l
  induction l with
  | nil =>
    intro _
    by_cases hx : key x = d
    · simp [insBefore, List.filter, if_pos hx, beq_iff_eq.mpr hx]
    · have : (key x == d) = false := by
        cases he : key x == d with
        | false => rfl
        | true => exact absurd (beq_iff_eq.mp he) hx
      simp [insBefore, List.filter, if_neg hx, this]
  | cons y ys ih =>
    intro hl
    obtain ⟨hy, hys⟩ := List.pairwise_cons.mp hl
    unfold insBefore
    by_cases hbef : strLt (key y) (key x) = true
    · rw [if_pos hbef]
      by_cases hx : key x = d
      · have hyd : (key y == d) = false := by
          cases he : key y == d with
          | false => rfl
          | true =>
            exfalso
            have h1 : key y = d := beq_iff_eq.mp he
            rw [h1, ← hx, strLt_irrefl] at hbef
            exact Bool.noConfusion hbef
        have hzs : ∀ z ∈ ys, (key z == d) = false := by
          intro z hz
          cases he : key z == d with
          | false => rfl
          | true =>
            exfalso
            have h1 : key z = d := beq_iff_eq.mp he
            have h2 := strLt_of_lt_of_not_lt hbef (hy z hz)
            rw [h1, ← hx, strLt_irrefl] at h2
            exact Bool.noConfusion h2
        rw [if_pos hx]
        rw [List.filter_cons_of_pos (by exact beq_iff_eq.mpr hx),
          List.filter_cons_of_neg (by rw [hyd]; exact Bool.false_ne_true),
          List.filter_eq_nil_iff.mpr (fun z hz => by rw [hzs z hz]; exact Bool.false_ne_true)]
        rfl
      · have hxd : (key x == d) = false := by
          cases he : key x == d with
          | false => rfl
          | true => exact absurd (beq_iff_eq.mp he) hx
        rw [if_neg hx]
        rw [List.filter_cons_of_neg (by rw [hxd]; exact Bool.false_ne_true)]
    · rw [if_neg hbef]
      have hrec := ih hys
      by_cases hx : key x = d
      · rw [if_pos hx] at hrec ⊢
        cases hyd : key y == d with
        | true =>
          rw [List.filter_cons_of_pos (by rw [hyd]),
            List.filter_cons_of_pos (by rw [hyd]), hrec]
          rfl
        | false =>
          rw [List.filter_cons_of_neg (by rw [hyd]; exact Bool.false_ne_true),
            List.filter_cons_of_neg (by rw [hyd]; exact Bool.false_ne_true), hrec]
      · rw [if_neg hx] at hrec ⊢
        cases hyd : key y == d with
        | true =>
          rw [List.filter_cons_of_pos (by rw [hyd]),
            List.filter_cons_of_pos (by rw [hyd]), hrec]
        | false =>
          rw [List.filter_cons_of_neg (by rw [hyd]; exact Bool.false_ne_true),
            List.filter_cons_of_neg (by rw [hyd]; exact Bool.false_ne_true), hrec]

theorem pysort_filter_key {α : Type} (key : α → List Char) (d : List Char)
    (l : List α) :
    (pysort (fun a b => strLt (key b) (key a)) l).filter (fun y => key y == d) =
      l.filter (fun y => key y == d) := by
  have hasym : ∀ a b : α, strLt (key b) (key a) = true →
      strLt (key a) (key b) = false := fun a b h => strLt_asymm h
  have htrans : ∀ a b c : α, strLt (key b) (key a) = true →
      strLt (key c) (key b) = true → strLt (key c) (key a) = true :=
    fun a b c h1 h2 => strLt_trans h2 h1
  suffices hgen : ∀ (l acc : List α),
      List.Pairwise (fun a b => strLt (key a) (key b) = false) acc →
      (l.foldl (fun acc x => insBefore (fun a b => strLt (key b) (key a)) x acc)
          acc).filter (fun y => key y == d) =
        acc.filter (fun y => key y == d) ++ l.filter (fun y => key y == d) by
    simpa using hgen l [] List.Pairwise.nil
  intro l
  induction l with
  | nil => intro acc _; simp
  | cons x xs ih =>
    intro acc h
    rw [List.foldl_cons]
    have hpair : List.Pairwise (fun a b => strLt (key a) (key b) = false)
        (insBefore (fun a b => strLt (key b) (key a)) x acc) :=
      insBefore_pairwise hasym htrans h x
    rw [ih _ hpair, insBefore_filter_key key d x acc h]
    by_cases hx : key x = d
    · rw [if_pos hx,
        List.filter_cons_of_pos (by exact beq_iff_eq.mpr hx), List.append_assoc]
      rfl
    · have hxd : (key x == d) = false := by
        cases he : key x == d with
        | false => rfl
        | true => exact absurd (beq_iff_eq.mp he) hx
      rw [if_neg hx,
        List.filter_cons_of_neg (by rw [hxd]; exact Bool.false_ne_true)]

/-! ## TitleSelector theorems -/

theorem read_toc_length_of_le {lines : List (List Char)} {n : Nat}
    (hn : n ≤ (toc_matches lines).length) : (read_toc lines n).length = n := by
  unfold read_toc toc_selected
  rw [List.length_map, (pysort_perm idxBefore _).length_eq, List.length_take_of_le]
  rw [(pysort_perm durBefore _).length_eq]
  exact hn

theorem read_toc_length_of_lt {lines : List (List Char)} {n : Nat}
    (h : (toc_matches lines).length < n) :
    (read_toc lines n).length = (toc_matches lines).length := by
  unfold read_toc toc_selected
  rw [List.length_map, (pysort_perm idxBefore _).length_eq, List.length_take,
    (pysort_perm durBefore _).length_eq]
  omega

theorem read_toc_mem {lines : List (List Char)} {n : Nat} :
    ∀ i ∈ read_toc lines n, ∃ e ∈ toc_matches lines, e.2 = i := by
  intro i hi
  unfold read_toc at hi
  obtain ⟨e, he, rfl⟩ := List.mem_map.mp hi
  refine ⟨e, ?_, rfl⟩
  have h1 : e ∈ toc_selected lines n := (pysort_perm idxBefore _).mem_iff.mp he
  have h2 : e ∈ pysort durBefore (toc_matches lines) := by
    unfold toc_selected at h1
    exact (List.take_sublist n _).subset h1
  exact (pysort_perm durBefore _).mem_iff.mp h2

/-- Counterexample to C6 as stated: a TOC with one parsable entry and
N = 2 makes `read_toc` return the one-element index sequence — no
`SelectionError` exists anywhere in the selector. -/
theorem read_toc_short_cex :
    read_toc ["Title: 7, Length: 9:00:00".toList] 2 = [7] ∧
    (read_toc ["Title: 7, Length: 9:00:00".toList] 2).length ≠ 2 := by
  decide

/-- C6 (amended): when fewer than N lines match, `read_toc` returns the
indices of all matched entries — a sequence strictly shorter than N,
never an error — and the driver then aborts only because its own
track-count guard (dvdrip.py line 319) sees a count different from N. -/
theorem read_toc_short (lines : List (List Char)) (n : Nat)
    (h : (toc_matches lines).length < n) :
    (read_toc lines n).length = (toc_matches lines).length ∧
    (read_toc lines n).length ≠ n ∧
    (∀ i ∈ read_toc lines n, ∃ e ∈ toc_matches lines, e.2 = i) := by
  refine ⟨read_toc_length_of_lt h, ?_, read_toc_mem⟩
  rw [read_toc_length_of_lt h]
  exact Nat.ne_of_lt h

/-- Witness for C6's amended theorem. -/
theorem read_toc_short_witness :
    (read_toc ["Title: 7, Length: 9:00:00".toList] 2).length =
      (toc_matches ["Title: 7, Length: 9:00:00".toList]).length ∧
    (read_toc ["Title: 7, Length: 9:00:00".toList] 2).length ≠ 2 ∧
    (∀ i ∈ read_toc ["Title: 7, Length: 9:00:00".toList] 2,
        ∃ e ∈ toc_matches ["Title: 7, Length: 9:00:00".toList], e.2 = i) :=
  read_toc_short _ _ (by decide)

/-- Counterexample to C5 as stated: `read_toc` compares duration fields
as strings, so with a 9-hour title 1 and a 100-hour title 2, requesting
one title returns title 1 — not the unique longest-duration entry. -/
theorem read_toc_longest_cex :
    read_toc ["Title: 1, Length: 9:00:00".toList,
      "Title: 2, Length: 100:00:00".toList] 1 = [1] ∧
    durationSeconds "9:00:00".toList = some 32400 ∧
    durationSeconds "100:00:00".toList = some 360000 ∧
    32400 < 360000 := by
  decide

/-- C5 (amended): with at least N parsable entries, `read_toc` returns
exactly N indices, nondecreasing (strictly increasing when the matched
title indices are distinct), each drawn from the input; the selected
entries are among the N greatest under descending lexicographic
comparison of the duration strings — which coincides with longest
duration exactly when the duration fields are textually comparable, e.g.
of equal width — with ties resolved by input order (for each duration
string, the selected entries carrying it form a prefix of all matched
entries carrying it, in input order). -/
theorem read_toc_selects (lines : List (List Char)) (n : Nat) (hn0 : 0 < n)
    (hn : n ≤ (toc_matches lines).length) :
    (read_toc lines n).length = n ∧
    List.Pairwise (fun a b => a ≤ b) (read_toc lines n) ∧
    (((toc_matches lines).map (fun e => e.2)).Nodup →
        List.Pairwise (fun a b => a < b) (read_toc lines n)) ∧
    (∀ i ∈ read_toc lines n, ∃ e ∈ toc_matches lines, e.2 = i) ∧
    (∀ e ∈ toc_selected lines n,
        (toc_matches lines).countP (fun y => strLt e.1 y.1) < n) ∧
    (∀ d : List Char,
        leads ((toc_selected lines n).filter (fun y => y.1 == d))
          ((toc_matches lines).filter (fun y => y.1 == d))) ∧
    List.Perm (read_toc lines n) ((toc_selected lines n).map (fun e => e.2)) := by
  have hidx_asym : ∀ a b : List Char × Nat,
      idxBefore a b = true → idxBefore b a = false := by
    intro a b h
    simp only [idxBefore, decide_eq_true_eq] at h
    simp only [idxBefore, decide_eq_false_iff_not]
    omega
  have hidx_trans : ∀ a b c : List Char × Nat, idxBefore a b = true →
      idxBefore b c = true → idxBefore a c = true := by
    intro a b c h1 h2
    simp only [idxBefore, decide_eq_true_eq] at h1 h2 ⊢
    omega
  have hdur_asym : ∀ a b : List Char × Nat,
      durBefore a b = true → durBefore b a = false := by
    intro a b h
    unfold durBefore at h ⊢
    exact strLt_asymm h
  have hdur_trans : ∀ a b c : List Char × Nat, durBefore a b = true →
      durBefore b c = true → durBefore a c = true := by
    intro a b c h1 h2
    unfold durBefore at h1 h2 ⊢
    exact strLt_trans h2 h1
  have hble : List.Pairwise (fun a b => a ≤ b) (read_toc lines n) := by
    unfold read_toc
    rw [List.pairwise_map]
    refine (pysort_pairwise hidx_asym hidx_trans _).imp ?_
    intro a b h
    simp only [idxBefore, decide_eq_false_iff_not] at h
    omega
  refine ⟨read_toc_length_of_le hn, hble, ?_, read_toc_mem, ?_, ?_, ?_⟩
  · intro hnd
    have h1 : (read_toc lines n).Nodup := by
      have hd1 : ((pysort durBefore (toc_matches lines)).map (fun e => e.2)).Nodup :=
        ((pysort_perm durBefore _).map (fun e => e.2)).nodup_iff.mpr hnd
      have hd2 : (((pysort durBefore (toc_matches lines)).take n).map
          (fun e => e.2)).Nodup :=
        (((List.take_sublist n _).map (fun e : List Char × Nat => e.2)).nodup) hd1
      unfold read_toc
      exact ((pysort_perm idxBefore _).map (fun e => e.2)).nodup_iff.mpr hd2
    exact (hble.and h1).imp (fun hab => lt_of_le_of_ne hab.1 hab.2)
  · intro e he
    have hSpair : List.Pairwise (fun a b => durBefore b a = false)
        (pysort durBefore (toc_matches lines)) :=
      pysort_pairwise hdur_asym hdur_trans _
    unfold toc_selected at he
    obtain ⟨i, hilen, hie⟩ := List.getElem_of_mem he
    have hin : i < n := lt_of_lt_of_le hilen
      (by rw [List.length_take]; exact inf_le_left)
    have hiS : i < (pysort durBefore (toc_matches lines)).length :=
      lt_of_lt_of_le hilen (List.take_sublist n _).length_le
    rw [List.getElem_take] at hie
    have hcnt : (toc_matches lines).countP (fun y => strLt e.1 y.1) =
        (pysort durBefore (toc_matches lines)).countP (fun y => strLt e.1 y.1) :=
      ((pysort_perm durBefore _).countP_eq _).symm
    rw [hcnt]
    have hsplit : (pysort durBefore (toc_matches lines)).countP
        (fun y => strLt e.1 y.1) =
        ((pysort durBefore (toc_matches lines)).take i).countP
          (fun y => strLt e.1 y.1)
        + ((pysort durBefore (toc_matches lines)).drop i).countP
          (fun y => strLt e.1 y.1) := by
      rw [← List.countP_append, List.take_append_drop]
    rw [hsplit]
    have h1 : ((pysort durBefore (toc_matches lines)).take i).countP
        (fun y => strLt e.1 y.1) ≤ i :=
      le_trans (List.countP_le_length _)
        (by rw [List.length_take]; exact inf_le_left)
    have hdropS : (pysort durBefore (toc_matches lines)).drop i =
        e :: (pysort durBefore (toc_matches lines)).drop (i + 1) := by
      rw [List.drop_eq_getElem_cons hiS, hie]
    have h2 : ((pysort durBefore (toc_matches lines)).drop i).countP
        (fun y => strLt e.1 y.1) = 0 := by
      rw [hdropS, List.countP_cons]
      have hz : ((pysort durBefore (toc_matches lines)).drop (i + 1)).countP
          (fun y => strLt e.1 y.1) = 0 := by
        rw [List.countP_eq_zero]
        intro z hz2
        have hdp : List.Pairwise (fun a b => durBefore b a = false)
            ((pysort durBefore (toc_matches lines)).drop i) :=
          hSpair.sublist (List.drop_sublist i _)
        rw [hdropS] at hdp
        have hez := (List.pairwise_cons.mp hdp).1 z hz2
        unfold durBefore at hez
        simp [hez]
      rw [hz, strLt_irrefl]
      simp
    omega
  · intro d
    have hstab : ((pysort durBefore (toc_matches lines)).filter
        (fun y => y.1 == d)) = (toc_matches lines).filter (fun y => y.1 == d) :=
      pysort_filter_key (fun e => e.1) d (toc_matches lines)
    refine ⟨((pysort durBefore (toc_matches lines)).drop n).filter
      (fun y => y.1 == d), ?_⟩
    unfold toc_selected
    rw [← List.filter_append, List.take_append_drop, hstab]
  · unfold read_toc
    exact (pysort_perm idxBefore _).map (fun e => e.2)

/-- Witness for C5's amended theorem, on the spec's end-to-end example:
durations 10, 90, 45, 90 and 5 minutes with N = 2. -/
theorem read_toc_selects_witness :
    (read_toc ["Title: 1, Length: 00:10:00".toList,
        "Title: 2, Length: 01:30:00".toList, "Title: 3, Length: 00:45:00".toList,
        "Title: 4, Length: 01:30:00".toList, "Title: 5, Length: 00:05:00".toList]
        2).length = 2 ∧
    List.Pairwise (fun a b => a ≤ b)
      (read_toc ["Title: 1, Length: 00:10:00".toList,
        "Title: 2, Length: 01:30:00".toList, "Title: 3, Length: 00:45:00".toList,
        "Title: 4, Length: 01:30:00".toList, "Title: 5, Length: 00:05:00".toList] 2) ∧
    (((toc_matches ["Title: 1, Length: 00:10:00".toList,
        "Title: 2, Length: 01:30:00".toList, "Title: 3, Length: 00:45:00".toList,
        "Title: 4, Length: 01:30:00".toList, "Title: 5, Length: 00:05:00".toList]).map
          (fun e => e.2)).Nodup →
        List.Pairwise (fun a b => a < b)
          (read_toc ["Title: 1, Length: 00:10:00".toList,
            "Title: 2, Length: 01:30:00".toList, "Title: 3, Length: 00:45:00".toList,
            "Title: 4, Length: 01:30:00".toList,
            "Title: 5, Length: 00:05:00".toList] 2)) ∧
    (∀ i ∈ read_toc ["Title: 1, Length: 00:10:00".toList,
        "Title: 2, Length: 01:30:00".toList, "Title: 3, Length: 00:45:00".toList,
        "Title: 4, Length: 01:30:00".toList, "Title: 5, Length: 00:05:00".toList] 2,
        ∃ e ∈ toc_matches ["Title: 1, Length: 00:10:00".toList,
          "Title: 2, Length: 01:30:00".toList, "Title: 3, Length: 00:45:00".toList,
          "Title: 4, Length: 01:30:00".toList, "Title: 5, Length: 00:05:00".toList],
          e.2 = i) ∧
    (∀ e ∈ toc_selected ["Title: 1, Length: 00:10:00".toList,
        "Title: 2, Length: 01:30:00".toList, "Title: 3, Length: 00:45:00".toList,
        "Title: 4, Length: 01:30:00".toList, "Title: 5, Length: 00:05:00".toList] 2,
        (toc_matches ["Title: 1, Length: 00:10:00".toList,
          "Title: 2, Length: 01:30:00".toList, "Title: 3, Length: 00:45:00".toList,
          "Title: 4, Length: 01:30:00".toList,
          "Title: 5, Length: 00:05:00".toList]).countP
            (fun y => strLt e.1 y.1) < 2) ∧
    (∀ d : List Char,
        leads ((toc_selected ["Title: 1, Length: 00:10:00".toList,
            "Title: 2, Length: 01:30:00".toList, "Title: 3, Length: 00:45:00".toList,
            "Title: 4, Length: 01:30:00".toList,
            "Title: 5, Length: 00:05:00".toList] 2).filter (fun y => y.1 == d))
          ((toc_matches ["Title: 1, Length: 00:10:00".toList,
            "Title: 2, Length: 01:30:00".toList, "Title: 3, Length: 00:45:00".toList,
            "Title: 4, Length: 01:30:00".toList,
            "Title: 5, Length: 00:05:00".toList]).filter (fun y => y.1 == d))) ∧
    List.Perm (read_toc ["Title: 1, Length: 00:10:00".toList,
        "Title: 2, Length: 01:30:00".toList, "Title: 3, Length: 00:45:00".toList,
        "Title: 4, Length: 01:30:00".toList, "Title: 5, Length: 00:05:00".toList] 2)
      ((toc_selected ["Title: 1, Length: 00:10:00".toList,
        "Title: 2, Length: 01:30:00".toList, "Title: 3, Length: 00:45:00".toList,
        "Title: 4, Length: 01:30:00".toList, "Title: 5, Length: 00:05:00".toList]
        2).map (fun e => e.2)) :=
  read_toc_selects _ _ (by decide) (by decide)

end Dvdrip
